import Mathlib

/-!
Verification of the hdsentinel-mqtt disk-telemetry publisher.

This file gives a shallow embedding of the core logic of
`app/hdsentinel_parser.py` (alias derivation, numeric value coercion,
sensor-template expansion, the steady publish loop, draining) together
with the value-coercion step of the legacy `app/hdsentinel-parser.py`
`main_loop`, and proves or refutes the specified properties.

Modelling conventions:
 - Python `dict`s are association lists with insert-overwrite
   (`insertA`) that keeps the position of an existing key, exactly like
   CPython assignment; `lookupA` is `dict.get`.
 - Python strings are `String`, characters compared by code point.
   `str.lower()` is modelled ASCII-only (`Char.toLower`), which is
   faithful for every value the program manipulates.
 - Regex operations from the source (`re.sub`, `re.findall`) are
   translated as single-pass scans equivalent to the specific patterns
   used (`[A-Z]+`, `[A-Z][a-z]+`, `[^a-zA-Z0-9]+`, `\d+`).
 - MQTT publication is modelled as a list of attempted `Event`s; the
   transport outcome is an explicit `Bool` per call, and
   `publish_single` swallows transport errors exactly as the source
   does (its `try/except` logs and returns normally).
 - `json.dumps(..., sort_keys=True)` is modelled as a deterministic
   rendering of the sorted association list (string escaping elided;
   no theorem depends on the rendered text beyond it starting with a
   brace).
-/

namespace HDS

/-! ### Association lists (Python dicts) -/

/-- Models `d.get(k)`: first binding of `k`. -/
def lookupA {α : Type} : List (String × α) → String → Option α
  | [], _ => none
  | (k', v) :: rest, k => if k' = k then some v else lookupA rest k

/-- Models `d[k] = v`: overwrite in place, else append, as CPython dicts do. -/
def insertA {α : Type} : List (String × α) → String → α → List (String × α)
  | [], k, v => [(k, v)]
  | (k', v') :: rest, k, v =>
    if k' = k then (k, v) :: rest else (k', v') :: insertA rest k v

/-! ### Character classes used by the source regexes (ASCII) -/

def isUpperAZ (c : Char) : Bool := 'A' ≤ c && c ≤ 'Z'

def isLowerAZ (c : Char) : Bool := 'a' ≤ c && c ≤ 'z'

def isDigit09 (c : Char) : Bool := '0' ≤ c && c ≤ '9'

def isAlnumAscii (c : Char) : Bool := isUpperAZ c || isLowerAZ c || isDigit09 c

/-- Python `str.lower()` (ASCII range, as used by the program). -/
def pyLowerStr (s : String) : String := String.mk (s.data.map Char.toLower)

/-! ### Alias builder: `to_snake_case`, `to_safe_id`, `build_disk_alias` -/

/-- Models `name.replace("-", " ")`. -/
def replaceHyphens (l : List Char) : List Char :=
  l.map (fun c => if c = '-' then ' ' else c)

/-- Models `re.sub("([A-Z]+)", r" \1", ...)`: a space before every maximal
run of ASCII uppercase letters.  The flag records whether the previous
character was uppercase (i.e. we are inside a run). -/
def sub1Go : Bool → List Char → List Char
  | _, [] => []
  | prevUp, c :: cs =>
    if isUpperAZ c then
      (if prevUp then [c] else [' ', c]) ++ sub1Go true cs
    else c :: sub1Go false cs

/-- Models `re.sub("([A-Z][a-z]+)", r" \1", ...)`: a space before every
uppercase letter that is immediately followed by a lowercase letter
(each such position starts one non-overlapping match of the pattern). -/
def sub2Go : List Char → List Char
  | [] => []
  | [c] => [c]
  | c :: d :: cs =>
    if isUpperAZ c && isLowerAZ d then ' ' :: c :: sub2Go (d :: cs)
    else c :: sub2Go (d :: cs)

/-- Python `str.split()`: split on whitespace runs, dropping empties. -/
def splitWs (l : List Char) : List (List Char) :=
  (l.foldr
    (fun c acc =>
      if c.isWhitespace then [] :: acc
      else
        match acc with
        | [] => [[c]]
        | w :: ws => (c :: w) :: ws)
    []).filter (fun w => !w.isEmpty)

/-- Models `to_snake_case` from the source. -/
def to_snake_case (name : String) : String :=
  pyLowerStr (String.intercalate "_"
    ((splitWs (sub2Go (sub1Go false (replaceHyphens name.data)))).map String.mk))

/-- Models `re.sub(r"[^a-zA-Z0-9]+", "_", ...)`: each maximal run of
non-alphanumeric characters becomes a single underscore.  The flag
records whether the previous character was part of such a run. -/
def safeGo : Bool → List Char → List Char
  | _, [] => []
  | prevBad, c :: cs =>
    if isAlnumAscii c then c :: safeGo false cs
    else (if prevBad then [] else ['_']) ++ safeGo true cs

/-- Python `str.strip("_")`: drop leading and trailing underscores. -/
def stripUnderscores (l : List Char) : List Char :=
  ((l.dropWhile (fun c => c == '_')).reverse.dropWhile (fun c => c == '_')).reverse

/-- Models `to_safe_id` from the source. -/
def to_safe_id (value : String) : String :=
  pyLowerStr (String.mk (stripUnderscores (safeGo false value.data)))

/-- The serial suffix used by `build_disk_alias`:
`to_safe_id(serial_number) if serial_number else "unknown"`. -/
def serialSuffix (serial_number : String) : String :=
  if serial_number = "" then "unknown" else to_safe_id serial_number

/-- Models `build_disk_alias` from the source. -/
def build_disk_alias (model_id : String) (serial_number : String) : String :=
  to_snake_case (if model_id = "" then "unknown" else model_id) ++ "_" ++
    serialSuffix serial_number

/-! ### Numeric value coercion: `to_number`, `check_if_number` -/

/-- One step of grouping for `re.findall(r"\d+", ...)`: digits extend
the current (leftmost) group, a non-digit starts a barrier. -/
def runsAux (l : List Char) : List (List Char) :=
  l.foldr
    (fun c acc =>
      if isDigit09 c then
        match acc with
        | [] => [[c]]
        | w :: ws => (c :: w) :: ws
      else [] :: acc)
    []

/-- Models `re.findall(r"\d+", value)`: all maximal runs of decimal digits. -/
def digitRuns (l : List Char) : List (List Char) :=
  (runsAux l).filter (fun w => !w.isEmpty)

/-- Models `to_number` from `hdsentinel_parser.py`: first digit run, `"0"` if none. -/
def to_number (value : String) : String :=
  match digitRuns value.data with
  | [] => "0"
  | r :: _ => String.mk r

/-- Modelled from the spec: "extract the first maximal run of decimal
digits found anywhere in the string".  Independent reference definition
used to check `to_number` against the spec's wording. -/
def firstMaximalDigitRun : List Char → List Char
  | [] => []
  | c :: cs => if isDigit09 c then c :: cs.takeWhile isDigit09 else firstMaximalDigitRun cs

/-- The three entries of `VALUE_TYPES`. -/
inductive VType
  | int
  | float
  | str
deriving DecidableEq, Repr

/-- Models `check_if_number` from the source. -/
def check_if_number (value : String) (value_type : VType) : String :=
  match value_type with
  | .int => to_number value
  | .float => to_number value
  | .str => value

/-- Python `int(...)` on an all-digit string. -/
def parseNat (l : List Char) : Nat :=
  l.foldl (fun n c => 10 * n + (c.toNat - 48)) 0

/-- A coerced Python value.  `f` is a float produced from an all-digit
string; such values are whole numbers, modelled exactly by a `Nat`. -/
inductive PyVal
  | s (v : String)
  | i (n : Nat)
  | f (n : Nat)
deriving DecidableEq, Repr

/-- The composition `value_type(check_if_number(value, value_type))`
used by the legacy `main_loop` (`str`, `int` or `float` applied to the
digit string). -/
def pyCoerce (value_type : VType) (value : String) : PyVal :=
  match value_type with
  | .str => .s value
  | .int => .i (parseNat (check_if_number value .int).data)
  | .float => .f (parseNat (check_if_number value .float).data)

/-! ### State payloads of the two `main_loop`s -/

/-- Models `hdsentinel_parser.py` `main_loop`: the published status dict
`{key.lower(): value for key, value in values.items()}` — raw values. -/
def buildStatus (values : List (String × String)) : List (String × String) :=
  values.foldl (fun acc kv => insertA acc (pyLowerStr kv.1) kv.2) []

/-- Models `hdsentinel-parser.py` (legacy) `main_loop`: the published status
dict with values coerced per the resolved `value_types`
(`config.value_types.get(key, str)` with lowercased keys). -/
def coercedStatus (value_types : List (String × VType))
    (values : List (String × String)) : List (String × PyVal) :=
  values.foldl
    (fun acc kv =>
      let lk := pyLowerStr kv.1
      let vt := (lookupA value_types lk).getD .str
      insertA acc lk (pyCoerce vt kv.2))
    []

/-- View a raw string map as a map of Python values (strings). -/
def embedStr (m : List (String × String)) : List (String × PyVal) :=
  m.map (fun kv => (kv.1, PyVal.s kv.2))

/-! ### Lexicographic string order (Python `sorted`) -/

/-- Python string `<=`: lexicographic by code point. -/
def listLe : List Char → List Char → Bool
  | [], _ => true
  | _ :: _, [] => false
  | a :: as, b :: bs => if a = b then listLe as bs else decide (a < b)

def strLe (a b : String) : Bool := listLe a.data b.data

/-- Order on dict items by key, as `sorted(d.items())` compares them
(keys of one dict are distinct, so the comparison never reaches the
second component). -/
def keyLe {α : Type} (a b : String × α) : Prop := strLe a.1 b.1 = true

instance {α : Type} : DecidableRel (keyLe (α := α)) := fun _ _ => by
  unfold keyLe; infer_instance

/-- Models `sorted(raw_sensors.items())`. -/
def sortTemplates {α : Type} (raw : List (String × α)) : List (String × α) :=
  List.insertionSort keyLe raw

/-! ### JSON rendering (`json.dumps(..., sort_keys=True)`) -/

def renderPair (kv : String × String) : String :=
  "\"" ++ kv.1 ++ "\": \"" ++ kv.2 ++ "\""

/-- Deterministic stand-in for `json.dumps(m, sort_keys=True)`. -/
def jsonDump (m : List (String × String)) : String :=
  "\x7b" ++ String.intercalate ", " ((sortTemplates m).map renderPair) ++ "\x7d"

/-! ### MQTT clients and the publish loop -/

/-- One attempted `publish.single`/`publish.multiple` element. -/
structure Event where
  topic : String
  payload : String
  retain : Bool
deriving DecidableEq, Repr

/-- The observable state of one `HaCapableMqttClient`: its base topic
and `__published_status`. -/
structure Client where
  baseTopic : String
  published : Option String
deriving DecidableEq, Repr

def availabilityTopic (c : Client) : String := c.baseTopic ++ "/availability"

def diskStateTopic (c : Client) : String := c.baseTopic ++ "/hdsentinel"

/-- The raw transport call, which may raise. -/
def transportPublish (ok : Bool) : Except String Unit :=
  if ok then .ok () else .error "transport error"

/-- Models `MqttClient.publish_single`: attempts the publish and catches every
transport exception internally (logging it), so it always returns
normally.  The event records the attempt. -/
def publish_single (ok : Bool) (topic payload : String) (retain : Bool) :
    List Event × Except String Unit :=
  ([⟨topic, payload, retain⟩],
   match transportPublish ok with
   | .ok u => .ok u
   | .error _ => .ok ())

/-- Models `HaCapableMqttClient.__publish_status`: skip if the status was
already published; otherwise publish (retained) and record the status.
The `.error` branch mirrors the dead `except` in the source. -/
def publishStatus (ok : Bool) (c : Client) (status : String) :
    List Event × Client :=
  if c.published = some status then ([], c)
  else
    match publish_single ok (availabilityTopic c) status true with
    | (es, .ok _) => (es, { c with published := some status })
    | (es, .error _) => (es, c)

/-- Models `main_loop` of `hdsentinel_parser.py` for one disk: publish the
status JSON to the state topic, then the online availability. -/
def main_loop (ok_state ok_avail : Bool) (c : Client) (state_topic : String)
    (values : List (String × String)) : List Event × Client :=
  let payload := jsonDump (buildStatus values)
  let es1 := (publish_single ok_state state_topic payload false).1
  let r := publishStatus ok_avail c "online"
  (es1 ++ r.1, r.2)

/-- One iteration of the steady `for disk_serial_number, values in
disks.items()` body: skip disks not registered at bootstrap, recreate a
missing client, run `main_loop`, keep the (mutated) client. -/
def processDisk (ok_state ok_avail : Bool) (topicRoot : String)
    (configs : List (String × String)) (clients : List (String × Client))
    (sn : String) (values : List (String × String)) :
    List Event × List (String × Client) :=
  match lookupA configs sn with
  | none => ([], clients)
  | some al =>
    let p :=
      match lookupA clients sn with
      | some c => (c, clients)
      | none =>
        let c : Client := ⟨topicRoot ++ "/" ++ al, none⟩
        (c, insertA clients sn c)
    let r := main_loop ok_state ok_avail p.1 (diskStateTopic p.1) values
    (r.1, insertA p.2 sn r.2)

/-- One steady cycle over a fresh snapshot.  Returns the events grouped
by the snapshot serial being processed, and the updated client map.
`oks` gives the transport outcome of the state/availability publishes
for each serial. -/
def steadyCycle (oks : String → Bool × Bool) (topicRoot : String)
    (configs : List (String × String)) :
    List (String × Client) → List (String × List (String × String)) →
    List (String × List Event) × List (String × Client)
  | clients, [] => ([], clients)
  | clients, entry :: rest =>
    let pd := processDisk (oks entry.1).1 (oks entry.1).2 topicRoot configs
      clients entry.1 entry.2
    let r := steadyCycle oks topicRoot configs pd.2 rest
    ((entry.1, pd.1) :: r.1, r.2)

/-- Events attributed to one serial in a grouped event list. -/
def eventsForSerial (sn : String) (groups : List (String × List Event)) :
    List Event :=
  groups.foldr (fun g acc => if g.1 = sn then g.2 ++ acc else acc) []

def onlineCount (es : List Event) : Nat :=
  (es.filter (fun e => e.payload == "online")).length

def offlineCount (es : List Event) : Nat :=
  (es.filter (fun e => e.payload == "offline")).length

/-- The last published availability of an optional client (`None` for a
client that does not exist yet, matching a fresh `__published_status`). -/
def availOf : Option Client → Option String
  | some c => c.published
  | none => none

/-- The `finally` block of `main` (Draining): publish offline for every
client, each wrapped in its own `try/except`. -/
def drainClients (oks : String → Bool) :
    List (String × Client) → List (String × List Event)
  | [] => []
  | entry :: rest =>
    (entry.1, (publishStatus (oks entry.1) entry.2 "offline").1) ::
      drainClients oks rest

/-- Models `values.get(key, default)`. -/
def pyGet (values : List (String × String)) (key dflt : String) : String :=
  (lookupA values key).getD dflt

/-- The alias computed during bootstrap for one snapshot entry:
`build_disk_alias(values.get("Hard_Disk_Model_ID", f"unknown_{sn}"), sn)`. -/
def bootstrapAlias (sn : String) (values : List (String × String)) : String :=
  build_disk_alias (pyGet values "Hard_Disk_Model_ID" ("unknown_" ++ sn)) sn

/-- The `mqtt_clients` dict built during Bootstrapping: one fresh client
per snapshot entry, `__published_status = None`. -/
def bootstrapClients (topicRoot : String)
    (snapshot : List (String × List (String × String))) :
    List (String × Client) :=
  snapshot.foldl
    (fun cls entry =>
      insertA cls entry.1 ⟨topicRoot ++ "/" ++ bootstrapAlias entry.1 entry.2, none⟩)
    []

/-- The `configs` dict built during Bootstrapping, keyed by serial;
only the alias is observable to the steady loop's registration check. -/
def bootstrapConfigs (snapshot : List (String × List (String × String))) :
    List (String × String) :=
  snapshot.foldl
    (fun cfgs entry => insertA cfgs entry.1 (bootstrapAlias entry.1 entry.2))
    []

/-- Run a sequence of steady cycles (each with its snapshot and
per-serial transport outcomes), threading the client map. -/
def runSteadyCycles (topicRoot : String) (configs : List (String × String))
    (cycles : List ((String → Bool × Bool) × List (String × List (String × String)))) :
    List (String × Client) → List (String × Client)
  | clients =>
    cycles.foldl
      (fun cls cyc => (steadyCycle cyc.1 topicRoot configs cls cyc.2).2) clients

/-! ### Snapshot source: `get_disks` -/

/-- One `Hard_Disk_Summary` element as the per-summary parse leaves it:
either malformed (the inner `try/except` skips it) or parsed with an
optional serial number and its flat attributes. -/
inductive SummaryItem
  | malformed
  | parsed (serial : Option String) (attrs : List (String × String))

/-- The outcome of producing and parsing the XML: `failure` covers a
`subprocess.CalledProcessError`, `ET.ParseError` or `FileNotFoundError`. -/
inductive SnapshotSource
  | failure
  | ok (summaries : List SummaryItem)

/-- The loop body of `get_disks`: a malformed summary is skipped by the
inner `try/except`; a summary without a truthy serial number is skipped
with a warning; the rest are stored under their serial. -/
def getDisksStep (acc : List (String × List (String × String)))
    (item : SummaryItem) : List (String × List (String × String)) :=
  match item with
  | .malformed => acc
  | .parsed none _ => acc
  | .parsed (some sn) attrs => if sn = "" then acc else insertA acc sn attrs

/-- Models `get_disks` from the source: on failure return an empty mapping;
otherwise keep exactly the summaries with a truthy serial number. -/
def get_disks : SnapshotSource → List (String × List (String × String))
  | .failure => []
  | .ok summaries => summaries.foldl getDisksStep []

/-! ### Sensor template expansion (`Config.__init__`) -/

/-- A JSON-like value from the YAML template configuration. -/
inductive JVal
  | s (v : String)
  | n (v : Nat)
  | arr (vs : List JVal)
  | obj (kvs : List (String × JVal))

/-- Python `f"{v}"` for the values that can appear as a `_key`
override; containers are abstracted (the program never uses them). -/
def pyStr : JVal → String
  | .s v => v
  | .n v => toString v
  | .arr _ => "<list>"
  | .obj _ => "<dict>"

def startsWithUnderscore (k : String) : Bool :=
  match k.data with
  | [] => false
  | c :: _ => c == '_'

/-- Models `key.lstrip("_")`. -/
def stripLeadUnderscores (s : String) : String :=
  String.mk (s.data.dropWhile (fun c => c == '_'))

/-- The normalized name of an internal (`_`-prefixed) template key:
`key.lstrip("_").lower()`. -/
def internalKeyName (k : String) : String :=
  pyLowerStr (stripLeadUnderscores k)

/-- Models `Config.__pop_internal_config`: split a template config into the
popped internal entries (normalized keys, later entries winning) and
the remaining payload entries, in order. -/
def splitInternal (cfg : List (String × JVal)) :
    List (String × JVal) × List (String × JVal) :=
  (cfg.foldl
      (fun acc kv =>
        if startsWithUnderscore kv.1 then insertA acc (internalKeyName kv.1) kv.2
        else acc)
      [],
   cfg.filter (fun kv => !startsWithUnderscore kv.1))

/-- Models `ceil(1.5 * update_interval)` on a natural interval. -/
def expireAfter (update_interval : Nat) : Nat := (3 * update_interval + 1) / 2

/-- Models `VALUE_TYPES[internal_config.get("type", "str")]`: `none` models the
`KeyError` raised for an unknown declared type. -/
def valueTypeOf : Option JVal → Option VType
  | none => some .str
  | some (.s "int") => some .int
  | some (.s "float") => some .float
  | some (.s "str") => some .str
  | some _ => none

/-- The identity of one disk as `Config.__init__` receives it. -/
structure DiskIdentity where
  serial_no : String
  aliasName : String
  model : String
  firmware : String
  state_topic : String
  availability_topic : String

/-- One discovery descriptor (`SensorConfig` named tuple). -/
structure SensorConfig where
  topic : String
  payload : JVal

def deviceBlock (d : DiskIdentity) : JVal :=
  .obj [("identifiers", .arr [.s ("hdsentinel_" ++ d.serial_no)]),
        ("manufacturer", .s "hdsentinel"),
        ("name", .s d.aliasName),
        ("model", .s d.model),
        ("sw_version", .s d.firmware)]

/-- The base payload of `Config.__get_device_descriptor`. -/
def basePayload (d : DiskIdentity) (interval : Nat) (name query_key : String) :
    List (String × JVal) :=
  [("device", deviceBlock d),
   ("expire_after", .n (expireAfter interval)),
   ("unique_id", .s ("hdsentinel_" ++ d.serial_no ++ "_" ++ query_key)),
   ("name", .s (d.aliasName ++ "_" ++ name)),
   ("availability_topic", .s d.availability_topic),
   ("state_topic", .s d.state_topic),
   ("json_attributes_topic", .s d.state_topic),
   ("value_template", .s ("\x7b\x7bvalue_json." ++ query_key ++ "\x7d\x7d"))]

/-- Models `Config.__get_device_descriptor`: base payload updated with the
remaining template entries (`payload.update(config)`, last write wins). -/
def getDeviceDescriptor (d : DiskIdentity) (interval : Nat)
    (sensor_type name query_key : String) (cfg : List (String × JVal)) :
    SensorConfig :=
  ⟨"homeassistant/" ++ sensor_type ++ "/hdsentinel_" ++ d.aliasName ++ "/" ++
     query_key ++ "/config",
   .obj (cfg.foldl (fun p kv => insertA p kv.1 kv.2)
     (basePayload d interval name query_key))⟩

/-- Process one template: resolve `query_key` and the declared value
type, and build the descriptor.  `none` models the `KeyError` on an
unknown type name. -/
def expandTemplate (d : DiskIdentity) (interval : Nat) (sensor_type : String)
    (name : String) (rawCfg : Option (List (String × JVal))) :
    Option ((String × VType) × SensorConfig) :=
  let cfg := rawCfg.getD []
  let ir := splitInternal cfg
  let query_key :=
    match lookupA ir.1 "key" with
    | some v => pyStr v
    | none => name
  match valueTypeOf (lookupA ir.1 "type") with
  | none => none
  | some vt =>
    some ((query_key, vt), getDeviceDescriptor d interval sensor_type name query_key ir.2)

/-- Process all templates of one sensor kind in sorted name order,
threading the `value_types` dict and the sensor list. -/
def expandKind (d : DiskIdentity) (interval : Nat) (sensor_type : String)
    (raw : List (String × Option (List (String × JVal))))
    (st : List (String × VType) × List SensorConfig) :
    Option (List (String × VType) × List SensorConfig) :=
  (sortTemplates raw).foldl
    (fun acc t => do
      let p ← acc
      let r ← expandTemplate d interval sensor_type t.1 t.2
      pure (insertA p.1 r.1.1 r.1.2, p.2 ++ [r.2]))
    (some st)

/-- Models `Config.__init__`: binary sensors first, then sensors, templates of
each kind iterated in sorted name order. -/
def configInit (d : DiskIdentity) (interval : Nat)
    (rawBinary rawSensor : List (String × Option (List (String × JVal)))) :
    Option (List (String × VType) × List SensorConfig) := do
  let st1 ← expandKind d interval "binary_sensor" rawBinary ([], [])
  expandKind d interval "sensor" rawSensor st1

/-! ## Helper lemmas -/

/-! ### Association lists -/

theorem lookupA_insertA_self {α : Type} (l : List (String × α)) (k : String) (v : α) :
    lookupA (insertA l k v) k = some v := by
  induction l with
  | nil => simp [insertA, lookupA]
  | cons p rest ih =>
    obtain ⟨k', v'⟩ := p
    by_cases h : k' = k
    · simp [insertA, h, lookupA]
    · simp [insertA, h, lookupA, ih]

theorem lookupA_insertA_ne {α : Type} (l : List (String × α)) {k k' : String} (v : α)
    (h : k' ≠ k) : lookupA (insertA l k v) k' = lookupA l k' := by
  have hne : k ≠ k' := Ne.symm h
  induction l with
  | nil => simp [insertA, lookupA, hne]
  | cons p rest ih =>
    obtain ⟨k0, v0⟩ := p
    by_cases h0 : k0 = k
    · subst h0
      simp [insertA, lookupA, hne]
    · simp only [insertA, if_neg h0, lookupA]
      by_cases h1 : k0 = k'
      · simp [h1]
      · simp [h1, ih]

theorem mem_insertA {α : Type} {l : List (String × α)} {k : String} {v : α}
    {p : String × α} (h : p ∈ insertA l k v) : p ∈ l ∨ p = (k, v) := by
  induction l with
  | nil => simp [insertA] at h; right; exact h
  | cons q rest ih =>
    obtain ⟨k0, v0⟩ := q
    by_cases h0 : k0 = k
    · simp only [insertA, if_pos h0] at h
      rcases List.mem_cons.mp h with h1 | h1
      · right; exact h1
      · left; exact List.mem_cons_of_mem _ h1
    · simp only [insertA, if_neg h0] at h
      rcases List.mem_cons.mp h with h1 | h1
      · left; exact h1 ▸ List.mem_cons_self _ _
      · rcases ih h1 with h2 | h2
        · left; exact List.mem_cons_of_mem _ h2
        · right; exact h2

theorem mem_keys_insertA {α : Type} {l : List (String × α)} {k x : String} {v : α}
    (h : x ∈ (insertA l k v).map Prod.fst) : x ∈ l.map Prod.fst ∨ x = k := by
  rcases List.mem_map.mp h with ⟨p, hp, hx⟩
  rcases mem_insertA hp with h1 | h1
  · left; exact hx ▸ List.mem_map_of_mem Prod.fst h1
  · right; rw [← hx, h1]

theorem nodup_keys_insertA {α : Type} {l : List (String × α)} (k : String) (v : α)
    (h : (l.map Prod.fst).Nodup) : ((insertA l k v).map Prod.fst).Nodup := by
  induction l with
  | nil => simp [insertA]
  | cons p rest ih =>
    obtain ⟨k0, v0⟩ := p
    rw [List.map_cons] at h
    have h0 := List.nodup_cons.mp h
    by_cases hk : k0 = k
    · subst hk
      have he : insertA ((k0, v0) :: rest) k0 v = (k0, v) :: rest := by simp [insertA]
      rw [he, List.map_cons]
      exact h
    · simp only [insertA, if_neg hk, List.map_cons, List.nodup_cons]
      refine ⟨fun hmem => ?_, ih h0.2⟩
      rcases mem_keys_insertA hmem with h1 | h1
      · exact h0.1 h1
      · exact hk h1

theorem lookupA_mem {α : Type} : ∀ {l : List (String × α)} {k : String} {v : α},
    lookupA l k = some v → (k, v) ∈ l := by
  intro l
  induction l with
  | nil => intro k v h; simp [lookupA] at h
  | cons p rest ih =>
    intro k v h
    obtain ⟨k0, v0⟩ := p
    by_cases h0 : k0 = k
    · subst h0
      simp [lookupA] at h
      subst h
      exact List.mem_cons_self _ _
    · simp only [lookupA, if_neg h0] at h
      exact List.mem_cons_of_mem _ (ih h)

/-! ### Strings -/

theorem string_append_cancel {a x y : String} (h : a ++ x = a ++ y) : x = y := by
  have hd : (a ++ x).data = (a ++ y).data := congrArg String.data h
  simp only [String.data_append] at hd
  exact String.ext (List.append_cancel_left hd)

theorem jsonDump_head (m : List (String × String)) :
    (jsonDump m).data.head? = some '{' := by
  show ((("\x7b" : String) ++ _) ++ _).data.head? = some '{'
  simp [String.data_append]

theorem jsonDump_ne_online (m : List (String × String)) : jsonDump m ≠ "online" := by
  intro h
  have := jsonDump_head m
  rw [h] at this
  simp at this

theorem jsonDump_ne_offline (m : List (String × String)) : jsonDump m ≠ "offline" := by
  intro h
  have := jsonDump_head m
  rw [h] at this
  simp at this

/-! ### The lexicographic order -/

theorem listLe_refl : ∀ l, listLe l l = true := by
  intro l
  induction l with
  | nil => rfl
  | cons a as ih => simp [listLe, ih]

theorem listLe_total : ∀ l m, listLe l m = true ∨ listLe m l = true := by
  intro l
  induction l with
  | nil => intro m; left; rfl
  | cons a as ih =>
    intro m
    cases m with
    | nil => right; rfl
    | cons b bs =>
      by_cases hab : a = b
      · subst hab
        rcases ih bs with h | h
        · left; simp [listLe, h]
        · right; simp [listLe, h]
      · rcases lt_or_gt_of_ne (show a ≠ b from hab) with h | h
        · left; simp [listLe, hab, h]
        · right; simp [listLe, Ne.symm hab, h, not_lt_of_gt h]

theorem listLe_trans : ∀ l m n, listLe l m = true → listLe m n = true →
    listLe l n = true := by
  intro l
  induction l with
  | nil => intros; rfl
  | cons a as ih =>
    intro m n h1 h2
    cases m with
    | nil => simp [listLe] at h1
    | cons b bs =>
      cases n with
      | nil => simp [listLe] at h2
      | cons c cs =>
        by_cases hab : a = b <;> by_cases hbc : b = c
        · subst hab; subst hbc
          simp [listLe] at h1 h2 ⊢
          exact ih _ _ h1 h2
        · subst hab
          simp [listLe, hbc] at h2 ⊢
          simp [hbc, h2]
        · subst hbc
          simp [listLe, hab] at h1 ⊢
          simp [hab, h1]
        · simp [listLe, hab] at h1
          simp [listLe, hbc] at h2
          have hac : a < c := lt_trans h1 h2
          simp [listLe, ne_of_lt hac, hac]

theorem listLe_antisymm : ∀ l m, listLe l m = true → listLe m l = true → l = m := by
  intro l
  induction l with
  | nil =>
    intro m _ h2
    cases m with
    | nil => rfl
    | cons b bs => simp [listLe] at h2
  | cons a as ih =>
    intro m h1 h2
    cases m with
    | nil => simp [listLe] at h1
    | cons b bs =>
      by_cases hab : a = b
      · subst hab
        simp [listLe] at h1 h2
        rw [ih bs h1 h2]
      · simp [listLe, hab] at h1
        simp [listLe, Ne.symm hab] at h2
        exact absurd h2 (not_lt_of_gt h1)

theorem keyLe_refl {α : Type} (a : String × α) : keyLe a a :=
  listLe_refl a.1.data

theorem keyLe_antisymm_fst {α : Type} {a b : String × α} (h1 : keyLe a b)
    (h2 : keyLe b a) : a.1 = b.1 :=
  String.ext (listLe_antisymm _ _ h1 h2)

/-! ### Uniqueness of the sorted permutation -/

theorem sorted_perm_nodup_eq {α : Type} :
    ∀ (l1 l2 : List (String × α)), l1.Perm l2 → l1.Sorted keyLe →
      l2.Sorted keyLe → (l1.map Prod.fst).Nodup → l1 = l2 := by
  intro l1
  induction l1 with
  | nil =>
    intro l2 hp _ _ _
    exact (hp.symm.eq_nil).symm
  | cons a t1 ih =>
    intro l2 hp hs1 hs2 hnd
    cases l2 with
    | nil => exact absurd hp.eq_nil (by simp)
    | cons b t2 =>
      have hmem_b : b ∈ a :: t1 := hp.symm.subset (List.mem_cons_self b t2)
      have hmem_a : a ∈ b :: t2 := hp.subset (List.mem_cons_self a t1)
      have hle_ab : keyLe a b := by
        rcases List.mem_cons.mp hmem_b with h | h
        · rw [h]; exact keyLe_refl a
        · exact (List.sorted_cons.mp hs1).1 b h
      have hle_ba : keyLe b a := by
        rcases List.mem_cons.mp hmem_a with h | h
        · rw [h]; exact keyLe_refl b
        · exact (List.sorted_cons.mp hs2).1 a h
      have hkey : a.1 = b.1 := keyLe_antisymm_fst hle_ab hle_ba
      have hab : a = b := by
        rcases List.mem_cons.mp hmem_a with h | h
        · exact h
        · rcases List.mem_cons.mp hmem_b with h' | h'
          · exact h'.symm
          · exfalso
            have hbk : b.1 ∈ t1.map Prod.fst := List.mem_map_of_mem Prod.fst h'
            rw [← hkey] at hbk
            exact (List.nodup_cons.mp (by simpa using hnd)).1 hbk
      subst hab
      have ht := ih t2 hp.cons_inv (List.sorted_cons.mp hs1).2
        (List.sorted_cons.mp hs2).2
        (List.nodup_cons.mp (by simpa using hnd)).2
      rw [ht]

theorem sortTemplates_perm {α : Type} (raw : List (String × α)) :
    (sortTemplates raw).Perm raw :=
  List.perm_insertionSort keyLe raw

theorem sortTemplates_sorted {α : Type} (raw : List (String × α)) :
    (sortTemplates raw).Sorted keyLe := by
  haveI : IsTotal (String × α) keyLe := ⟨fun a b => listLe_total a.1.data b.1.data⟩
  haveI : IsTrans (String × α) keyLe :=
    ⟨fun a b c => listLe_trans a.1.data b.1.data c.1.data⟩
  exact List.sorted_insertionSort keyLe raw

theorem sortTemplates_eq_of_perm {α : Type} {raw1 raw2 : List (String × α)}
    (h : raw1.Perm raw2) (hnd : (raw1.map Prod.fst).Nodup) :
    sortTemplates raw1 = sortTemplates raw2 := by
  refine sorted_perm_nodup_eq _ _
    ((sortTemplates_perm raw1).trans (h.trans (sortTemplates_perm raw2).symm))
    (sortTemplates_sorted raw1) (sortTemplates_sorted raw2) ?_
  exact (((sortTemplates_perm raw1).map Prod.fst).nodup_iff).mpr hnd

/-! ### Digit runs -/

theorem runsAux_cons (c : Char) (l : List Char) :
    runsAux (c :: l) =
      if isDigit09 c then
        match runsAux l with
        | [] => [[c]]
        | w :: ws => (c :: w) :: ws
      else [] :: runsAux l := rfl

theorem runsAux_digit : ∀ (cs : List Char) (c : Char), isDigit09 c = true →
    runsAux (c :: cs) = (c :: cs.takeWhile isDigit09) :: (runsAux cs).tail := by
  intro cs
  induction cs with
  | nil => intro c hc; simp [runsAux_cons, hc, runsAux]
  | cons d ds ih =>
    intro c hc
    by_cases hd : isDigit09 d = true
    · rw [runsAux_cons, if_pos hc, ih d hd]
      simp [List.takeWhile_cons, hd, ih d hd]
    · have hd' : isDigit09 d = false := by simpa using hd
      simp [runsAux_cons, hc, hd', List.takeWhile_cons]

theorem tail_filter_runsAux : ∀ cs : List Char,
    (runsAux cs).tail.filter (fun w => !w.isEmpty) =
      digitRuns (cs.dropWhile isDigit09) := by
  intro cs
  induction cs with
  | nil => rfl
  | cons d ds ih =>
    by_cases hd : isDigit09 d = true
    · rw [runsAux_digit ds d hd, List.dropWhile_cons_of_pos hd]
      simpa using ih
    · have hd' : isDigit09 d = false := by simpa using hd
      rw [runsAux_cons, if_neg (by simp [hd']),
        List.dropWhile_cons_of_neg (by simp [hd'])]
      simp [digitRuns, runsAux_cons, hd']

theorem digitRuns_cons (c : Char) (cs : List Char) :
    digitRuns (c :: cs) =
      if isDigit09 c then
        (c :: cs.takeWhile isDigit09) :: digitRuns (cs.dropWhile isDigit09)
      else digitRuns cs := by
  by_cases hc : isDigit09 c = true
  · rw [if_pos hc]
    unfold digitRuns
    rw [runsAux_digit cs c hc, List.filter_cons]
    simpa using tail_filter_runsAux cs
  · have hc' : isDigit09 c = false := by simpa using hc
    rw [if_neg (by simp [hc'])]
    unfold digitRuns
    rw [runsAux_cons, if_neg (by simp [hc'])]
    simp [List.filter_cons]

theorem digitRuns_head : ∀ l : List Char,
    (digitRuns l).head? =
      if firstMaximalDigitRun l = [] then none
      else some (firstMaximalDigitRun l) := by
  intro l
  induction l with
  | nil => rfl
  | cons c cs ih =>
    by_cases hc : isDigit09 c = true
    · rw [digitRuns_cons, if_pos hc]
      simp [firstMaximalDigitRun, hc]
    · have hc' : isDigit09 c = false := by simpa using hc
      rw [digitRuns_cons, if_neg (by simp [hc'])]
      simpa [firstMaximalDigitRun, hc'] using ih

theorem firstMaximalDigitRun_eq_nil_iff : ∀ l : List Char,
    firstMaximalDigitRun l = [] ↔ ∀ c ∈ l, isDigit09 c = false := by
  intro l
  induction l with
  | nil => simp [firstMaximalDigitRun]
  | cons c cs ih =>
    by_cases hc : isDigit09 c = true
    · simp [firstMaximalDigitRun, hc]
    · have hc' : isDigit09 c = false := by simpa using hc
      simp [firstMaximalDigitRun, hc', ih]

theorem to_number_eq (v : String) :
    to_number v =
      if firstMaximalDigitRun v.data = [] then "0"
      else String.mk (firstMaximalDigitRun v.data) := by
  have hh := digitRuns_head v.data
  by_cases hfm : firstMaximalDigitRun v.data = []
  · rw [if_pos hfm]
    have h0 : (digitRuns v.data).head? = none := by rw [hh, if_pos hfm]
    have h1 : digitRuns v.data = [] := List.head?_eq_none_iff.mp h0
    simp [to_number, h1]
  · rw [if_neg hfm]
    have h0 : (digitRuns v.data).head? = some (firstMaximalDigitRun v.data) := by
      rw [hh, if_neg hfm]
    cases hd : digitRuns v.data with
    | nil => rw [hd] at h0; simp at h0
    | cons r rest =>
      rw [hd] at h0
      simp at h0
      simp [to_number, hd, h0]

/-! ### Safe-id characterization -/

theorem isAlnum_underscore : isAlnumAscii '_' = false := by decide

theorem safeGo_mem : ∀ (l : List Char) (b : Bool) (c : Char), c ∈ safeGo b l →
    isAlnumAscii c = true ∨ c = '_' := by
  intro l
  induction l with
  | nil => intro b c h; simp [safeGo] at h
  | cons d ds ih =>
    intro b c h
    by_cases hd : isAlnumAscii d = true
    · rw [safeGo, if_pos hd] at h
      rcases List.mem_cons.mp h with h1 | h1
      · left; rw [h1]; exact hd
      · exact ih false c h1
    · have hd' : isAlnumAscii d = false := by simpa using hd
      rw [safeGo, if_neg (by simp [hd'])] at h
      cases b with
      | true =>
        rw [if_pos rfl, List.nil_append] at h
        exact ih true c h
      | false =>
        rw [if_neg (by simp), List.cons_append, List.nil_append] at h
        rcases List.mem_cons.mp h with h1 | h1
        · right; exact h1
        · exact ih true c h1

theorem safeGo_filter : ∀ (l : List Char) (b : Bool),
    (safeGo b l).filter isAlnumAscii = l.filter isAlnumAscii := by
  intro l
  induction l with
  | nil => intro b; rfl
  | cons d ds ih =>
    intro b
    by_cases hd : isAlnumAscii d = true
    · simp [safeGo, hd, List.filter_cons, ih]
    · have hd' : isAlnumAscii d = false := by simpa using hd
      cases b <;>
        simp [safeGo, hd', List.filter_cons, ih, isAlnum_underscore]

theorem filter_alnum_dropWhileUnd : ∀ l : List Char,
    (l.dropWhile (fun c => c == '_')).filter isAlnumAscii =
      l.filter isAlnumAscii := by
  intro l
  induction l with
  | nil => rfl
  | cons d ds ih =>
    by_cases hd : d = '_'
    · subst hd
      rw [List.dropWhile_cons_of_pos (by simp), ih]
      simp [List.filter_cons, isAlnum_underscore]
    · rw [List.dropWhile_cons_of_neg (by simp [hd])]

theorem filter_alnum_stripUnderscores (l : List Char) :
    (stripUnderscores l).filter isAlnumAscii = l.filter isAlnumAscii := by
  unfold stripUnderscores
  rw [List.filter_reverse, filter_alnum_dropWhileUnd, List.filter_reverse,
    List.reverse_reverse, filter_alnum_dropWhileUnd]

theorem stripUnderscores_nil_of_all_und (l : List Char) (h : ∀ c ∈ l, c = '_') :
    stripUnderscores l = [] := by
  unfold stripUnderscores
  have h1 : l.dropWhile (fun c => c == '_') = [] := by
    rw [List.dropWhile_eq_nil_iff]
    intro x hx
    simp [h x hx]
  rw [h1]
  rfl

theorem to_safe_id_eq_empty_iff (s : String) :
    to_safe_id s = "" ↔ s.data.filter isAlnumAscii = [] := by
  constructor
  · intro h
    have hd : (pyLowerStr (String.mk (stripUnderscores (safeGo false s.data)))).data = [] := by
      rw [show pyLowerStr (String.mk (stripUnderscores (safeGo false s.data))) =
        to_safe_id s from rfl, h]
    have h1 : stripUnderscores (safeGo false s.data) = [] := by
      cases hstrip : stripUnderscores (safeGo false s.data) with
      | nil => rfl
      | cons x xs =>
        exfalso
        simp [pyLowerStr, hstrip] at hd
    calc s.data.filter isAlnumAscii
        = (safeGo false s.data).filter isAlnumAscii := (safeGo_filter _ _).symm
      _ = (stripUnderscores (safeGo false s.data)).filter isAlnumAscii :=
          (filter_alnum_stripUnderscores _).symm
      _ = [] := by rw [h1]; rfl
  · intro h
    have h2 : (safeGo false s.data).filter isAlnumAscii = [] := by
      rw [safeGo_filter]; exact h
    have h3 : ∀ c ∈ safeGo false s.data, c = '_' := by
      intro c hc
      rcases safeGo_mem s.data false c hc with h4 | h4
      · exfalso
        have h5 := List.filter_eq_nil_iff.mp h2 c hc
        simp [h4] at h5
      · exact h4
    have h4 := stripUnderscores_nil_of_all_und _ h3
    show pyLowerStr (String.mk (stripUnderscores (safeGo false s.data))) = ""
    rw [h4]
    rfl

/-! ### Publish machinery -/

theorem publish_single_eq (ok : Bool) (t p : String) (r : Bool) :
    publish_single ok t p r = ([⟨t, p, r⟩], Except.ok ()) := by
  cases ok <;> rfl

theorem publishStatus_eq (ok : Bool) (c : Client) (status : String) :
    publishStatus ok c status =
      if c.published = some status then ([], c)
      else ([⟨availabilityTopic c, status, true⟩],
        { c with published := some status }) := by
  by_cases h : c.published = some status <;>
    simp [publishStatus, publish_single_eq, h]

theorem publishStatus_published (ok : Bool) (c : Client) (status : String) :
    (publishStatus ok c status).2.published = some status := by
  rw [publishStatus_eq]
  by_cases h : c.published = some status <;> simp [h]

theorem publishStatus_fst (ok : Bool) (c : Client) (status : String) :
    (publishStatus ok c status).1 =
      if c.published = some status then []
      else [⟨availabilityTopic c, status, true⟩] := by
  rw [publishStatus_eq]
  by_cases h : c.published = some status <;> simp [h]

theorem main_loop_eq (okS okA : Bool) (c : Client) (t : String)
    (values : List (String × String)) :
    main_loop okS okA c t values =
      (⟨t, jsonDump (buildStatus values), false⟩ :: (publishStatus okA c "online").1,
       (publishStatus okA c "online").2) := by
  simp [main_loop, publish_single_eq]

theorem main_loop_published (okS okA : Bool) (c : Client) (t : String)
    (values : List (String × String)) :
    (main_loop okS okA c t values).2.published = some "online" := by
  rw [main_loop_eq]
  exact publishStatus_published _ _ _

theorem onlineCount_cons_state (t : String) (m : List (String × String))
    (rest : List Event) :
    onlineCount (⟨t, jsonDump m, false⟩ :: rest) = onlineCount rest := by
  unfold onlineCount
  rw [List.filter_cons]
  simp [jsonDump_ne_online m]

theorem onlineCount_publishStatus (ok : Bool) (c : Client) :
    onlineCount (publishStatus ok c "online").1 =
      if c.published = some "online" then 0 else 1 := by
  rw [publishStatus_fst]
  by_cases h : c.published = some "online" <;> simp [h, onlineCount]

/-! ### The steady loop body -/

theorem processDisk_not_reg (okS okA : Bool) (root : String)
    (configs : List (String × String)) (clients : List (String × Client))
    (sn : String) (values : List (String × String))
    (hcfg : lookupA configs sn = none) :
    processDisk okS okA root configs clients sn values = ([], clients) := by
  simp [processDisk, hcfg]

theorem processDisk_lookup_other (okS okA : Bool) (root : String)
    (configs : List (String × String)) (clients : List (String × Client))
    (t : String) (values : List (String × String)) {sn : String} (h : t ≠ sn) :
    lookupA (processDisk okS okA root configs clients t values).2 sn =
      lookupA clients sn := by
  cases hcfg : lookupA configs t with
  | none => simp [processDisk, hcfg]
  | some al =>
    cases hcl : lookupA clients t with
    | some c =>
      simp only [processDisk, hcfg, hcl]
      exact lookupA_insertA_ne _ _ (Ne.symm h)
    | none =>
      simp only [processDisk, hcfg, hcl]
      rw [lookupA_insertA_ne _ _ (Ne.symm h), lookupA_insertA_ne _ _ (Ne.symm h)]

theorem processDisk_self (okS okA : Bool) (root : String)
    (configs : List (String × String)) (clients : List (String × Client))
    (sn : String) (values : List (String × String)) {al : String}
    (hcfg : lookupA configs sn = some al) :
    onlineCount (processDisk okS okA root configs clients sn values).1 =
      (if availOf (lookupA clients sn) = some "online" then 0 else 1) ∧
    availOf (lookupA (processDisk okS okA root configs clients sn values).2 sn) =
      some "online" := by
  cases hcl : lookupA clients sn with
  | some c =>
    have hpd : processDisk okS okA root configs clients sn values =
        ((main_loop okS okA c (diskStateTopic c) values).1,
         insertA clients sn (main_loop okS okA c (diskStateTopic c) values).2) := by
      simp [processDisk, hcfg, hcl]
    rw [hpd]
    constructor
    · rw [main_loop_eq]
      show onlineCount (_ :: _) = _
      rw [onlineCount_cons_state, onlineCount_publishStatus]
      simp [availOf, hcl]
    · rw [lookupA_insertA_self]
      simp [availOf, main_loop_published]
  | none =>
    have hpd : processDisk okS okA root configs clients sn values =
        ((main_loop okS okA ⟨root ++ "/" ++ al, none⟩
            (diskStateTopic ⟨root ++ "/" ++ al, none⟩) values).1,
         insertA (insertA clients sn ⟨root ++ "/" ++ al, none⟩) sn
           (main_loop okS okA ⟨root ++ "/" ++ al, none⟩
             (diskStateTopic ⟨root ++ "/" ++ al, none⟩) values).2) := by
      simp [processDisk, hcfg, hcl]
    rw [hpd]
    constructor
    · rw [main_loop_eq]
      show onlineCount (_ :: _) = _
      rw [onlineCount_cons_state, onlineCount_publishStatus]
      simp [availOf, hcl]
    · rw [lookupA_insertA_self]
      simp [availOf, main_loop_published]

theorem processDisk_inv (okS okA : Bool) (root : String)
    (configs : List (String × String)) (clients : List (String × Client))
    (sn : String) (values : List (String × String))
    (hI : ∀ p ∈ clients, p.2.published ≠ some "offline") :
    ∀ p ∈ (processDisk okS okA root configs clients sn values).2,
      p.2.published ≠ some "offline" := by
  intro p hp
  cases hcfg : lookupA configs sn with
  | none =>
    rw [processDisk_not_reg _ _ _ _ _ _ _ hcfg] at hp
    exact hI p hp
  | some al =>
    cases hcl : lookupA clients sn with
    | some c =>
      simp only [processDisk, hcfg, hcl] at hp
      rcases mem_insertA hp with h1 | h1
      · exact hI p h1
      · rw [h1]
        simp [main_loop_published]
    | none =>
      simp only [processDisk, hcfg, hcl] at hp
      rcases mem_insertA hp with h1 | h1
      · rcases mem_insertA h1 with h2 | h2
        · exact hI p h2
        · rw [h2]
          simp
      · rw [h1]
        simp [main_loop_published]

theorem processDisk_isSome (okS okA : Bool) (root : String)
    (configs : List (String × String)) (clients : List (String × Client))
    (sn : String) (values : List (String × String)) (x : String)
    (h : (lookupA clients x).isSome) :
    (lookupA (processDisk okS okA root configs clients sn values).2 x).isSome := by
  cases hcfg : lookupA configs sn with
  | none => rw [processDisk_not_reg _ _ _ _ _ _ _ hcfg]; exact h
  | some al =>
    by_cases hx : sn = x
    · subst hx
      cases hcl : lookupA clients sn with
      | some c =>
        simp only [processDisk, hcfg, hcl]
        rw [lookupA_insertA_self]
        rfl
      | none =>
        rw [hcl] at h
        simp at h
    · rw [processDisk_lookup_other okS okA root configs clients sn values hx]
      exact h

theorem processDisk_nodup (okS okA : Bool) (root : String)
    (configs : List (String × String)) (clients : List (String × Client))
    (sn : String) (values : List (String × String))
    (h : (clients.map Prod.fst).Nodup) :
    (((processDisk okS okA root configs clients sn values).2).map Prod.fst).Nodup := by
  cases hcfg : lookupA configs sn with
  | none => rw [processDisk_not_reg _ _ _ _ _ _ _ hcfg]; exact h
  | some al =>
    cases hcl : lookupA clients sn with
    | some c =>
      simp only [processDisk, hcfg, hcl]
      exact nodup_keys_insertA _ _ h
    | none =>
      simp only [processDisk, hcfg, hcl]
      exact nodup_keys_insertA _ _ (nodup_keys_insertA _ _ h)

/-! ### Steady cycles -/

theorem eventsForSerial_cons (sn t : String) (es : List Event)
    (gs : List (String × List Event)) :
    eventsForSerial sn ((t, es) :: gs) =
      if t = sn then es ++ eventsForSerial sn gs else eventsForSerial sn gs := rfl

theorem steadyCycle_cons (oks : String → Bool × Bool) (root : String)
    (configs : List (String × String)) (clients : List (String × Client))
    (e : String × List (String × String))
    (rest : List (String × List (String × String))) :
    steadyCycle oks root configs clients (e :: rest) =
      ((e.1, (processDisk (oks e.1).1 (oks e.1).2 root configs clients e.1 e.2).1) ::
         (steadyCycle oks root configs
           (processDisk (oks e.1).1 (oks e.1).2 root configs clients e.1 e.2).2 rest).1,
       (steadyCycle oks root configs
         (processDisk (oks e.1).1 (oks e.1).2 root configs clients e.1 e.2).2 rest).2) := rfl

theorem steadyCycle_absent (oks : String → Bool × Bool) (root : String)
    (configs : List (String × String)) :
    ∀ (snap : List (String × List (String × String)))
      (clients : List (String × Client)) {sn : String},
      sn ∉ snap.map Prod.fst →
      eventsForSerial sn (steadyCycle oks root configs clients snap).1 = [] ∧
      lookupA (steadyCycle oks root configs clients snap).2 sn =
        lookupA clients sn := by
  intro snap
  induction snap with
  | nil => intro clients sn _; exact ⟨rfl, rfl⟩
  | cons e rest ih =>
    intro clients sn h
    rw [List.map_cons] at h
    have he : e.1 ≠ sn := fun hh => h (hh ▸ List.mem_cons_self _ _)
    have hr : sn ∉ rest.map Prod.fst := fun hh => h (List.mem_cons_of_mem _ hh)
    obtain ⟨hev, hlk⟩ := ih
      (processDisk (oks e.1).1 (oks e.1).2 root configs clients e.1 e.2).2 hr
    rw [steadyCycle_cons]
    constructor
    · rw [eventsForSerial_cons, if_neg he]
      exact hev
    · rw [hlk, processDisk_lookup_other _ _ _ _ _ _ _ he]

theorem steadyCycle_online (oks : String → Bool × Bool) (root : String)
    (configs : List (String × String)) {sn al : String}
    (hreg : lookupA configs sn = some al) :
    ∀ (snap : List (String × List (String × String)))
      (clients : List (String × Client)),
      (snap.map Prod.fst).Nodup → sn ∈ snap.map Prod.fst →
      onlineCount (eventsForSerial sn (steadyCycle oks root configs clients snap).1) =
        (if availOf (lookupA clients sn) = some "online" then 0 else 1) ∧
      availOf (lookupA (steadyCycle oks root configs clients snap).2 sn) =
        some "online" := by
  intro snap
  induction snap with
  | nil => intro clients _ hmem; simp at hmem
  | cons e rest ih =>
    intro clients hnd hmem
    rw [List.map_cons] at hnd hmem
    have hnd' := List.nodup_cons.mp hnd
    rw [steadyCycle_cons]
    by_cases he : e.1 = sn
    · subst he
      have hnr : e.1 ∉ rest.map Prod.fst := hnd'.1
      obtain ⟨habs_ev, habs_lk⟩ := steadyCycle_absent oks root configs rest
        (processDisk (oks e.1).1 (oks e.1).2 root configs clients e.1 e.2).2 hnr
      have hself := processDisk_self (oks e.1).1 (oks e.1).2 root configs clients
        e.1 e.2 hreg
      constructor
      · rw [eventsForSerial_cons, if_pos rfl, habs_ev, List.append_nil]
        exact hself.1
      · rw [habs_lk]
        exact hself.2
    · have hmem' : sn ∈ rest.map Prod.fst := by
        rcases List.mem_cons.mp hmem with h | h
        · exact absurd h.symm he
        · exact h
      obtain ⟨ih_ev, ih_av⟩ := ih
        (processDisk (oks e.1).1 (oks e.1).2 root configs clients e.1 e.2).2
        hnd'.2 hmem'
      constructor
      · rw [eventsForSerial_cons, if_neg he, ih_ev,
          processDisk_lookup_other _ _ _ _ _ _ _ he]
      · exact ih_av

theorem steadyCycle_inv (oks : String → Bool × Bool) (root : String)
    (configs : List (String × String)) :
    ∀ (snap : List (String × List (String × String)))
      (clients : List (String × Client)),
      (∀ p ∈ clients, p.2.published ≠ some "offline") →
      ∀ p ∈ (steadyCycle oks root configs clients snap).2,
        p.2.published ≠ some "offline" := by
  intro snap
  induction snap with
  | nil => intro clients h; exact h
  | cons e rest ih =>
    intro clients h
    rw [steadyCycle_cons]
    exact ih _ (processDisk_inv _ _ _ _ _ _ _ h)

theorem steadyCycle_isSome (oks : String → Bool × Bool) (root : String)
    (configs : List (String × String)) :
    ∀ (snap : List (String × List (String × String)))
      (clients : List (String × Client)) (x : String),
      (lookupA clients x).isSome →
      (lookupA (steadyCycle oks root configs clients snap).2 x).isSome := by
  intro snap
  induction snap with
  | nil => intro clients x h; exact h
  | cons e rest ih =>
    intro clients x h
    rw [steadyCycle_cons]
    exact ih _ x (processDisk_isSome _ _ _ _ _ _ _ x h)

theorem steadyCycle_nodup (oks : String → Bool × Bool) (root : String)
    (configs : List (String × String)) :
    ∀ (snap : List (String × List (String × String)))
      (clients : List (String × Client)),
      (clients.map Prod.fst).Nodup →
      (((steadyCycle oks root configs clients snap).2).map Prod.fst).Nodup := by
  intro snap
  induction snap with
  | nil => intro clients h; exact h
  | cons e rest ih =>
    intro clients h
    rw [steadyCycle_cons]
    exact ih _ (processDisk_nodup _ _ _ _ _ _ _ h)

/-! ### Runs of steady cycles -/

theorem runSteadyCycles_cons (root : String) (configs : List (String × String))
    (cyc : (String → Bool × Bool) × List (String × List (String × String)))
    (rest : List ((String → Bool × Bool) × List (String × List (String × String))))
    (clients : List (String × Client)) :
    runSteadyCycles root configs (cyc :: rest) clients =
      runSteadyCycles root configs rest
        (steadyCycle cyc.1 root configs clients cyc.2).2 := rfl

theorem runSteadyCycles_inv (root : String) (configs : List (String × String)) :
    ∀ (cycles : List ((String → Bool × Bool) × List (String × List (String × String))))
      (clients : List (String × Client)),
      (∀ p ∈ clients, p.2.published ≠ some "offline") →
      ∀ p ∈ runSteadyCycles root configs cycles clients,
        p.2.published ≠ some "offline" := by
  intro cycles
  induction cycles with
  | nil => intro clients h; exact h
  | cons cyc rest ih =>
    intro clients h
    rw [runSteadyCycles_cons]
    exact ih _ (steadyCycle_inv _ _ _ _ _ h)

theorem runSteadyCycles_isSome (root : String) (configs : List (String × String)) :
    ∀ (cycles : List ((String → Bool × Bool) × List (String × List (String × String))))
      (clients : List (String × Client)) (x : String),
      (lookupA clients x).isSome →
      (lookupA (runSteadyCycles root configs cycles clients) x).isSome := by
  intro cycles
  induction cycles with
  | nil => intro clients x h; exact h
  | cons cyc rest ih =>
    intro clients x h
    rw [runSteadyCycles_cons]
    exact ih _ x (steadyCycle_isSome _ _ _ _ _ x h)

theorem runSteadyCycles_nodup (root : String) (configs : List (String × String)) :
    ∀ (cycles : List ((String → Bool × Bool) × List (String × List (String × String))))
      (clients : List (String × Client)),
      (clients.map Prod.fst).Nodup →
      ((runSteadyCycles root configs cycles clients).map Prod.fst).Nodup := by
  intro cycles
  induction cycles with
  | nil => intro clients h; exact h
  | cons cyc rest ih =>
    intro clients h
    rw [runSteadyCycles_cons]
    exact ih _ (steadyCycle_nodup _ _ _ _ _ h)

/-! ### Draining -/

theorem offlineCount_single (t : String) :
    offlineCount [⟨t, "offline", true⟩] = 1 := rfl

theorem drainClients_absent (okd : String → Bool) :
    ∀ (clients : List (String × Client)) {sn : String},
      sn ∉ clients.map Prod.fst →
      eventsForSerial sn (drainClients okd clients) = [] := by
  intro clients
  induction clients with
  | nil => intro sn _; rfl
  | cons e rest ih =>
    intro sn h
    rw [List.map_cons] at h
    have he : e.1 ≠ sn := fun hh => h (hh ▸ List.mem_cons_self _ _)
    have hr : sn ∉ rest.map Prod.fst := fun hh => h (List.mem_cons_of_mem _ hh)
    show eventsForSerial sn ((e.1, _) :: drainClients okd rest) = []
    rw [eventsForSerial_cons, if_neg he]
    exact ih hr

theorem drainClients_count (okd : String → Bool) :
    ∀ (clients : List (String × Client)) {sn : String} {c : Client},
      (clients.map Prod.fst).Nodup → lookupA clients sn = some c →
      c.published ≠ some "offline" →
      offlineCount (eventsForSerial sn (drainClients okd clients)) = 1 := by
  intro clients
  induction clients with
  | nil => intro sn c _ hlk _; simp [lookupA] at hlk
  | cons e rest ih =>
    intro sn c hnd hlk hpub
    obtain ⟨t, c'⟩ := e
    rw [List.map_cons] at hnd
    have hnd' := List.nodup_cons.mp hnd
    by_cases ht : t = sn
    · have hc : c' = c := by simpa [lookupA, ht] using hlk
      show offlineCount (eventsForSerial sn
        ((t, (publishStatus (okd t) c' "offline").1) :: drainClients okd rest)) = 1
      rw [eventsForSerial_cons, if_pos ht]
      have hnr : sn ∉ rest.map Prod.fst := by
        rw [← ht]
        exact hnd'.1
      rw [drainClients_absent okd rest hnr, List.append_nil, publishStatus_fst,
        if_neg (by rw [hc]; exact hpub), offlineCount_single]
    · have hlk' : lookupA rest sn = some c := by
        simpa [lookupA, ht] using hlk
      show offlineCount (eventsForSerial sn
        ((t, (publishStatus (okd t) c' "offline").1) :: drainClients okd rest)) = 1
      rw [eventsForSerial_cons, if_neg ht]
      exact ih hnd'.2 hlk' hpub

/-! ### Bootstrapping -/

theorem bootstrapClients_nodup (root : String) :
    ∀ snap : List (String × List (String × String)),
      ((bootstrapClients root snap).map Prod.fst).Nodup := by
  have aux : ∀ (snap : List (String × List (String × String)))
      (acc : List (String × Client)), (acc.map Prod.fst).Nodup →
      ((snap.foldl (fun cls entry =>
          insertA cls entry.1
            ⟨root ++ "/" ++ bootstrapAlias entry.1 entry.2, none⟩) acc).map
        Prod.fst).Nodup := by
    intro snap
    induction snap with
    | nil => intro acc h; exact h
    | cons e rest ih =>
      intro acc h
      rw [List.foldl_cons]
      exact ih _ (nodup_keys_insertA _ _ h)
  intro snap
  exact aux snap [] (by simp)

theorem bootstrapClients_published (root : String) :
    ∀ snap : List (String × List (String × String)),
      ∀ p ∈ bootstrapClients root snap, p.2.published = none := by
  have aux : ∀ (snap : List (String × List (String × String)))
      (acc : List (String × Client)), (∀ p ∈ acc, p.2.published = none) →
      ∀ p ∈ snap.foldl (fun cls entry =>
          insertA cls entry.1
            ⟨root ++ "/" ++ bootstrapAlias entry.1 entry.2, none⟩) acc,
        p.2.published = none := by
    intro snap
    induction snap with
    | nil => intro acc h; exact h
    | cons e rest ih =>
      intro acc h
      rw [List.foldl_cons]
      refine ih _ (fun p hp => ?_)
      rcases mem_insertA hp with h1 | h1
      · exact h p h1
      · rw [h1]
  intro snap
  exact aux snap [] (by simp)

/-! ### State payload embedding -/

theorem embedStr_insertA (l : List (String × String)) (k v : String) :
    embedStr (insertA l k v) = insertA (embedStr l) k (PyVal.s v) := by
  induction l with
  | nil => rfl
  | cons p rest ih =>
    obtain ⟨k0, v0⟩ := p
    by_cases h : k0 = k
    · simp [insertA, embedStr, h]
    · have h2 : insertA ((k0, v0) :: rest) k v = (k0, v0) :: insertA rest k v := by
        simp [insertA, h]
      have h3 : insertA ((k0, PyVal.s v0) :: embedStr rest) k (PyVal.s v) =
          (k0, PyVal.s v0) :: insertA (embedStr rest) k (PyVal.s v) := by
        simp [insertA, h]
      calc embedStr (insertA ((k0, v0) :: rest) k v)
          = (k0, PyVal.s v0) :: embedStr (insertA rest k v) := by rw [h2]; rfl
        _ = (k0, PyVal.s v0) :: insertA (embedStr rest) k (PyVal.s v) := by rw [ih]
        _ = insertA (embedStr ((k0, v0) :: rest)) k (PyVal.s v) := by
            rw [show embedStr ((k0, v0) :: rest) =
              (k0, PyVal.s v0) :: embedStr rest from rfl, h3]

theorem buildStatus_aux :
    ∀ (values : List (String × String)) (acc : List (String × String)),
      embedStr (values.foldl
        (fun acc kv => insertA acc (pyLowerStr kv.1) kv.2) acc) =
      values.foldl
        (fun acc kv => insertA acc (pyLowerStr kv.1) (PyVal.s kv.2))
        (embedStr acc) := by
  intro values
  induction values with
  | nil => intro acc; rfl
  | cons kv rest ih =>
    intro acc
    rw [List.foldl_cons, List.foldl_cons, ih, embedStr_insertA]

/-! ### Snapshot keys -/

theorem getDisksStep_keys (acc : List (String × List (String × String)))
    (item : SummaryItem) (h : ∀ p ∈ acc, p.1 ≠ "") :
    ∀ p ∈ getDisksStep acc item, p.1 ≠ "" := by
  intro p hp
  cases item with
  | malformed => exact h p hp
  | parsed ser attrs =>
    cases ser with
    | none => exact h p hp
    | some sn =>
      by_cases hsn : sn = ""
      · rw [getDisksStep, if_pos hsn] at hp
        exact h p hp
      · rw [getDisksStep, if_neg hsn] at hp
        rcases mem_insertA hp with h1 | h1
        · exact h p h1
        · rw [h1]
          exact hsn

theorem get_disks_keys_aux :
    ∀ (items : List SummaryItem) (acc : List (String × List (String × String))),
      (∀ p ∈ acc, p.1 ≠ "") → ∀ p ∈ items.foldl getDisksStep acc, p.1 ≠ "" := by
  intro items
  induction items with
  | nil => intro acc h; exact h
  | cons it rest ih =>
    intro acc h
    rw [List.foldl_cons]
    exact ih _ (getDisksStep_keys acc it h)

/-! ## Claim theorems -/

/-- C1 counterexample: the steady-loop `main_loop` of
`hdsentinel_parser.py` publishes the raw attribute string, not the value
coerced per the resolved `value_types`.  With `Temperature -> "38 C"`
and a resolved `int` type for `temperature`, the published object holds
the string `"38 C"` where the claim requires the number `38`. -/
theorem c1_state_not_coerced_cx :
    embedStr (buildStatus [("Temperature", "38 C")]) =
      [("temperature", PyVal.s "38 C")] ∧
    coercedStatus [("temperature", VType.int)] [("Temperature", "38 C")] =
      [("temperature", PyVal.i 38)] ∧
    embedStr (buildStatus [("Temperature", "38 C")]) ≠
      coercedStatus [("temperature", VType.int)] [("Temperature", "38 C")] := by
  exact ⟨rfl, rfl, by decide⟩

/-- C1 (amended): in every Steady cycle the JSON object published to a
present disk's state topic maps each lowercase attribute name to the raw
string value unchanged — i.e. it equals the coerced bundle only under
the degenerate (all-`str`) value-type table.  Coercion per the resolved
`value_types` happens only in the legacy `hdsentinel-parser.py`
`main_loop` (`coercedStatus`). -/
theorem c1_state_payload_raw (values : List (String × String)) :
    embedStr (buildStatus values) = coercedStatus [] values :=
  buildStatus_aux values []

/-- C2 counterexample: a disk registered at Bootstrapping (serial `A`)
that is absent from the fresh snapshot gets no publish at all during the
Steady cycle: zero "offline" availability messages are attempted, not
exactly one as the claim states. -/
theorem c2_absent_disk_cx :
    eventsForSerial "A"
      (steadyCycle (fun _ => (true, true)) "hdsentinel" [("A", "a"), ("B", "b")]
        [("A", ⟨"hdsentinel/a", some "online"⟩), ("B", ⟨"hdsentinel/b", none⟩)]
        [("B", [])]).1 = [] ∧
    offlineCount (eventsForSerial "A"
      (steadyCycle (fun _ => (true, true)) "hdsentinel" [("A", "a"), ("B", "b")]
        [("A", ⟨"hdsentinel/a", some "online"⟩), ("B", ⟨"hdsentinel/b", none⟩)]
        [("B", [])]).1) = 0 ∧
    (0 : Nat) ≠ 1 := by
  exact ⟨rfl, rfl, by decide⟩

/-- C2 (amended): a disk registered at Bootstrapping that is absent from
the fresh snapshot is skipped entirely by the Steady cycle: nothing at
all is published for it (no "offline", no "online", no state message)
and its client state is untouched; "offline" is only published during
Draining. -/
theorem c2_absent_disk_untouched (oks : String → Bool × Bool) (root : String)
    (configs : List (String × String)) (clients : List (String × Client))
    (snap : List (String × List (String × String))) (sn : String)
    (h : sn ∉ snap.map Prod.fst) :
    eventsForSerial sn (steadyCycle oks root configs clients snap).1 = [] ∧
    lookupA (steadyCycle oks root configs clients snap).2 sn =
      lookupA clients sn :=
  steadyCycle_absent oks root configs snap clients h

/-- C2 witness: the amended theorem applied at a concrete cycle in which
disk `A` is registered but absent from the snapshot. -/
theorem c2_absent_disk_untouched_witness :
    eventsForSerial "A"
      (steadyCycle (fun _ => (true, true)) "hdsentinel" [("A", "a")]
        [("A", ⟨"hdsentinel/a", some "online"⟩)] [("B", [])]).1 = [] ∧
    lookupA (steadyCycle (fun _ => (true, true)) "hdsentinel" [("A", "a")]
        [("A", ⟨"hdsentinel/a", some "online"⟩)] [("B", [])]).2 "A" =
      lookupA [("A", ⟨"hdsentinel/a", some "online"⟩)] "A" :=
  c2_absent_disk_untouched _ _ _ _ _ _ (by decide)

/-- C3: across any two consecutive Steady cycles in which a registered
disk remains present in the snapshot, the "online" availability message
for that disk is attempted at most once in total, and is never attempted
at all if the client's last published availability was already
"online". -/
theorem c3_online_at_most_once (oks1 oks2 : String → Bool × Bool)
    (root : String) (configs : List (String × String))
    (clients : List (String × Client))
    (snap1 snap2 : List (String × List (String × String))) (sn al : String)
    (hreg : lookupA configs sn = some al)
    (hnd1 : (snap1.map Prod.fst).Nodup) (hnd2 : (snap2.map Prod.fst).Nodup)
    (hp1 : sn ∈ snap1.map Prod.fst) (hp2 : sn ∈ snap2.map Prod.fst) :
    (onlineCount (eventsForSerial sn
        (steadyCycle oks1 root configs clients snap1).1) +
      onlineCount (eventsForSerial sn
        (steadyCycle oks2 root configs
          (steadyCycle oks1 root configs clients snap1).2 snap2).1) ≤ 1) ∧
    (availOf (lookupA clients sn) = some "online" →
      onlineCount (eventsForSerial sn
          (steadyCycle oks1 root configs clients snap1).1) +
        onlineCount (eventsForSerial sn
          (steadyCycle oks2 root configs
            (steadyCycle oks1 root configs clients snap1).2 snap2).1) = 0) := by
  obtain ⟨h1c, h1a⟩ := steadyCycle_online oks1 root configs hreg snap1 clients
    hnd1 hp1
  obtain ⟨h2c, h2a⟩ := steadyCycle_online oks2 root configs hreg snap2
    (steadyCycle oks1 root configs clients snap1).2 hnd2 hp2
  constructor
  · rw [h1c, h2c, h1a, if_pos rfl]
    by_cases hav : availOf (lookupA clients sn) = some "online"
    · rw [if_pos hav]
      decide
    · rw [if_neg hav]
  · intro hav
    rw [h1c, h2c, h1a, if_pos rfl, if_pos hav]

/-- C3 witness: the theorem applied at a concrete pair of cycles for a
registered disk `A` present in both snapshots. -/
theorem c3_online_at_most_once_witness :
    (onlineCount (eventsForSerial "A"
        (steadyCycle (fun _ => (true, true)) "hdsentinel" [("A", "a")]
          [("A", ⟨"hdsentinel/a", none⟩)] [("A", [])]).1) +
      onlineCount (eventsForSerial "A"
        (steadyCycle (fun _ => (true, true)) "hdsentinel" [("A", "a")]
          (steadyCycle (fun _ => (true, true)) "hdsentinel" [("A", "a")]
            [("A", ⟨"hdsentinel/a", none⟩)] [("A", [])]).2 [("A", [])]).1) ≤ 1) ∧
    (availOf (lookupA [("A", ⟨"hdsentinel/a", none⟩)] "A") = some "online" →
      onlineCount (eventsForSerial "A"
          (steadyCycle (fun _ => (true, true)) "hdsentinel" [("A", "a")]
            [("A", ⟨"hdsentinel/a", none⟩)] [("A", [])]).1) +
        onlineCount (eventsForSerial "A"
          (steadyCycle (fun _ => (true, true)) "hdsentinel" [("A", "a")]
            (steadyCycle (fun _ => (true, true)) "hdsentinel" [("A", "a")]
              [("A", ⟨"hdsentinel/a", none⟩)] [("A", [])]).2 [("A", [])]).1) = 0) :=
  c3_online_at_most_once _ _ _ _ _ _ _ "A" "a" rfl (by decide) (by decide)
    (by decide) (by decide)

/-- C4: for a fixed model string, two serial numbers whose normalized
serial suffixes differ yield different aliases — `build_disk_alias` is
injective in the serial number after normalization. -/
theorem c4_alias_injective_serial (model s1 s2 : String)
    (h : serialSuffix s1 ≠ serialSuffix s2) :
    build_disk_alias model s1 ≠ build_disk_alias model s2 := by
  intro heq
  apply h
  unfold build_disk_alias at heq
  exact string_append_cancel heq

/-- C4 witness: the spec's own example pair of serials under a shared
model name, with the expected alias value checked explicitly. -/
theorem c4_alias_injective_serial_witness :
    build_disk_alias "SAMSUNG HD103UJ" "S13PJ90S113060" =
      "samsung_hd103_uj_s13pj90s113060" ∧
    build_disk_alias "SAMSUNG HD103UJ" "S13PJ90S113060" ≠
      build_disk_alias "SAMSUNG HD103UJ" "S13PJ90S113054" :=
  ⟨by decide, c4_alias_injective_serial _ _ _ (by decide)⟩

/-- C5: after Bootstrapping and any sequence of Steady cycles, Draining
attempts exactly one "offline" availability publish for every disk that
was registered during Bootstrapping, whatever the per-disk transport
outcomes during the cycles and during Draining itself (errors are
swallowed per disk, so one disk's failure never prevents the others'
attempts).  The idempotence check never suppresses the publish because
no client's availability is "offline" before Draining. -/
theorem c5_draining_offline_all (root : String)
    (snap0 : List (String × List (String × String)))
    (cycles : List ((String → Bool × Bool) ×
      List (String × List (String × String))))
    (okd : String → Bool) (sn : String)
    (hreg : (lookupA (bootstrapClients root snap0) sn).isSome) :
    offlineCount (eventsForSerial sn
      (drainClients okd
        (runSteadyCycles root (bootstrapConfigs snap0) cycles
          (bootstrapClients root snap0)))) = 1 := by
  have hsome := runSteadyCycles_isSome root (bootstrapConfigs snap0) cycles
    (bootstrapClients root snap0) sn hreg
  obtain ⟨c, hc⟩ := Option.isSome_iff_exists.mp hsome
  have hmem := lookupA_mem hc
  have hinv := runSteadyCycles_inv root (bootstrapConfigs snap0) cycles
    (bootstrapClients root snap0)
    (fun p hp => by rw [bootstrapClients_published root snap0 p hp]; simp)
    (sn, c) hmem
  have hnd := runSteadyCycles_nodup root (bootstrapConfigs snap0) cycles
    (bootstrapClients root snap0) (bootstrapClients_nodup root snap0)
  exact drainClients_count okd _ hnd hc hinv

/-- C5 witness: the theorem applied to a one-disk bootstrap with a
failing transport during Draining. -/
theorem c5_draining_offline_all_witness :
    offlineCount (eventsForSerial "A"
      (drainClients (fun _ => false)
        (runSteadyCycles "hdsentinel"
          (bootstrapConfigs [("A", [("Hard_Disk_Model_ID", "X")])]) []
          (bootstrapClients "hdsentinel"
            [("A", [("Hard_Disk_Model_ID", "X")])])))) = 1 :=
  c5_draining_offline_all "hdsentinel" [("A", [("Hard_Disk_Model_ID", "X")])]
    [] (fun _ => false) "A" (by decide)

/-- C6: numeric coercion is total — `check_if_number` under `int` and
`float` equals `to_number`, which extracts exactly the first maximal
run of decimal digits (the spec-worded `firstMaximalDigitRun`) and
falls back to the literal `"0"` when the string has no digit; the
spec's examples `int("More than 1000 days") = 1000` and
`int("N/A") = 0` hold. -/
theorem c6_to_number_total (v : String) :
    check_if_number v VType.int = to_number v ∧
    check_if_number v VType.float = to_number v ∧
    check_if_number v VType.str = v ∧
    to_number v = (if firstMaximalDigitRun v.data = [] then "0"
      else String.mk (firstMaximalDigitRun v.data)) ∧
    ((∀ c ∈ v.data, isDigit09 c = false) → to_number v = "0") ∧
    pyCoerce VType.int "More than 1000 days" = PyVal.i 1000 ∧
    pyCoerce VType.int "N/A" = PyVal.i 0 := by
  refine ⟨rfl, rfl, rfl, to_number_eq v, ?_, by decide, by decide⟩
  intro h
  rw [to_number_eq v, if_pos ((firstMaximalDigitRun_eq_nil_iff v.data).mpr h)]

/-- C6 witness: the digit-free branch of the theorem at `"N/A"`. -/
theorem c6_to_number_total_witness : to_number "N/A" = "0" :=
  (c6_to_number_total "N/A").2.2.2.2.1 (by decide)

/-- C7 counterexample: a non-empty serial consisting only of
non-alphanumeric characters normalizes to the empty string, not to
`"unknown"`, so the serial suffix of an alias can be empty — refuting
the claim's final clause. -/
theorem c7_serial_suffix_empty_cx :
    serialSuffix "---" = "" ∧ build_disk_alias "X" "---" = "x_" ∧
    ("" : String) ≠ "unknown" := by
  exact ⟨by decide, by decide, by decide⟩

/-- C7 (amended): the serial suffix normalizes by replacing maximal
non-alphanumeric runs with one underscore, stripping and lowercasing
(`to_safe_id`), and yields `"unknown"` only for the empty/missing
serial; for a non-empty serial the suffix is empty exactly when the
serial contains no ASCII letter or digit, so the suffix can be the
empty string. -/
theorem c7_serial_suffix_characterization (s : String) :
    serialSuffix "" = "unknown" ∧
    (s ≠ "" → (serialSuffix s = "" ↔ ∀ c ∈ s.data, isAlnumAscii c = false)) := by
  refine ⟨rfl, fun hns => ?_⟩
  unfold serialSuffix
  rw [if_neg hns, to_safe_id_eq_empty_iff]
  constructor
  · intro h c hc
    have h1 := List.filter_eq_nil_iff.mp h c hc
    simpa using h1
  · intro h
    exact List.filter_eq_nil_iff.mpr (fun c hc => by simp [h c hc])

/-- C7 witness: the amended characterization applied at the
all-punctuation serial `"---"`. -/
theorem c7_serial_suffix_characterization_witness :
    serialSuffix "---" = "" ↔ ∀ c ∈ ("---" : String).data, isAlnumAscii c = false :=
  (c7_serial_suffix_characterization "---").2 (by decide)

/-- C8: sensor expansion is deterministic — `Config.__init__` on two
template tables that are permutations of each other (dict insertion
order may differ) with distinct template names yields identical
`value_types` and byte-identical ordered descriptor lists, because
templates of each kind are iterated in sorted name order. -/
theorem c8_expansion_deterministic_sorted (d : DiskIdentity) (interval : Nat)
    (b1 b2 s1 s2 : List (String × Option (List (String × JVal))))
    (hbp : b1.Perm b2) (hsp : s1.Perm s2)
    (hbn : (b1.map Prod.fst).Nodup) (hsn : (s1.map Prod.fst).Nodup) :
    configInit d interval b1 s1 = configInit d interval b2 s2 ∧
    (sortTemplates b1).Sorted keyLe ∧ (sortTemplates s1).Sorted keyLe := by
  refine ⟨?_, sortTemplates_sorted b1, sortTemplates_sorted s1⟩
  have hb := sortTemplates_eq_of_perm hbp hbn
  have hs := sortTemplates_eq_of_perm hsp hsn
  unfold configInit expandKind
  rw [hb, hs]

/-- C8 witness: the theorem applied to a two-template table listed in
two different insertion orders. -/
theorem c8_expansion_deterministic_sorted_witness :
    configInit ⟨"S1", "al", "M", "F", "st", "av"⟩ 600 []
        [("temperature", some [("_type", JVal.s "int")]), ("health", none)] =
      configInit ⟨"S1", "al", "M", "F", "st", "av"⟩ 600 []
        [("health", none), ("temperature", some [("_type", JVal.s "int")])] ∧
    (sortTemplates ([] : List (String × Option (List (String × JVal))))).Sorted
      keyLe ∧
    (sortTemplates [("temperature", some [("_type", JVal.s "int")]),
      ("health", none)]).Sorted keyLe :=
  c8_expansion_deterministic_sorted ⟨"S1", "al", "M", "F", "st", "av"⟩ 600 _ _ _ _
    (List.Perm.refl _)
    (List.Perm.swap ("health", none) ("temperature", some [("_type", JVal.s "int")]) [])
    (by decide) (by decide)

/-- C9: `__publish_status` records the requested status as the client's
last published availability even when the transport publish failed
(`publish_single` catches every exception internally and returns
normally), and a subsequent "online" publish after any earlier "online"
call attempts nothing — a failed "online" publish is never retried. -/
theorem c9_published_recorded_despite_failure (ok1 ok2 : Bool) (c : Client)
    (st : String) :
    (publishStatus ok1 c st).2.published = some st ∧
    (publishStatus ok2 (publishStatus ok1 c "online").2 "online").1 = [] := by
  refine ⟨publishStatus_published ok1 c st, ?_⟩
  rw [publishStatus_fst, if_pos (publishStatus_published ok1 c "online")]

/-- C10: every key of the snapshot mapping returned by `get_disks` is a
non-empty serial string (summaries lacking a truthy serial are skipped),
and a parse or subprocess failure yields the empty mapping instead of an
exception. -/
theorem c10_get_disks_keys (src : SnapshotSource) :
    (∀ p ∈ get_disks src, p.1 ≠ "") ∧
    get_disks SnapshotSource.failure = [] := by
  refine ⟨?_, rfl⟩
  cases src with
  | failure => intro p hp; simp [get_disks] at hp
  | ok summaries => exact get_disks_keys_aux summaries [] (by simp)

/-- C10 witness: the theorem applied to a snapshot with one good
summary, one serial-less summary, one empty-serial summary and one
malformed summary. -/
theorem c10_get_disks_keys_witness : ("S1" : String) ≠ "" :=
  (c10_get_disks_keys (SnapshotSource.ok
    [SummaryItem.parsed (some "S1") [], SummaryItem.parsed none [],
     SummaryItem.parsed (some "") [], SummaryItem.malformed])).1
    ("S1", []) (by decide)

end HDS
